import Mathlib

set_option maxHeartbeats 1000000

/-
Shallow embedding of the Ollama wire-protocol adapter:
  src/packages/core/src/core/ollamaConverter.ts   (schema converter, tokenizer)
  src/packages/core/src/core/ollamaContentGenerator.ts   (facade, stream decoder)
JavaScript strings are modelled as Lean String (or List Char where the code
manipulates them character by character); optional / possibly-undefined
fields are Option; JSON-object payloads that the adapter only passes through
verbatim are modelled as association lists of strings.
-/

namespace OllamaAdapter

/-- Whitespace character class used by JavaScript (regex backslash-s and
String.prototype.trim): tab, LF, VT, FF, CR, space, NBSP, and the Unicode
space separators, line and paragraph separators, and the BOM. -/
def jsWsCodes : List Nat :=
  [9, 10, 11, 12, 13, 32, 160, 5760, 8192, 8193, 8194, 8195, 8196, 8197,
   8198, 8199, 8200, 8201, 8202, 8232, 8233, 8239, 8287, 12288, 65279]

def isJsWs (c : Char) : Bool := jsWsCodes.contains c.toNat

/-- JavaScript String.prototype.trim over a character list. -/
def jsTrimList (l : List Char) : List Char :=
  ((l.dropWhile isJsWs).reverse.dropWhile isJsWs).reverse

/-- JavaScript String.prototype.trim. -/
def jsTrim (s : String) : String := String.mk (jsTrimList s.data)

/-- JavaScript String.prototype.includes: pat occurs somewhere in s. -/
def containsSub (s pat : String) : Bool :=
  s.data.tails.any (fun t => pat.data.isPrefixOf t)

/-- Map-like JSON payload the adapter passes through verbatim (function-call
arguments, tool parameter schemas), modelled as an association list. -/
abbrev JsonObject := List (String × String)

/-- One content part of a Gemini turn: the ad hoc union-typed part objects of
the @google/genai Part type, as discriminated by the converter's
key-membership tests. The constructor for a part object that carries none of
the four recognized keys is `other` (such parts are silently ignored by the
converter). For functionResponse, responseJson models the string
JSON.stringify would produce from part.functionResponse.response. -/
inductive Part
  | text (s : String)
  | inlineData (mimeType : Option String) (data : String)
  | functionCall (name : String) (args : Option JsonObject)
  | functionResponse (responseJson : String)
  | other
deriving DecidableEq

/-- Gemini Content: a role-tagged turn. An absent parts array behaves
identically to an empty one in all converter code paths, so parts is a plain
list. -/
structure Content where
  role : Option String := none
  parts : List Part := []
deriving DecidableEq

/-- Generation options of the Gemini request config. Numeric values are
modelled as rationals. -/
structure GenerateContentConfig where
  temperature : Option Rat := none
  topP : Option Rat := none
  topK : Option Rat := none
  maxOutputTokens : Option Rat := none
  stopSequences : Option (List String) := none
  seed : Option Rat := none
deriving DecidableEq

structure FunctionDeclaration where
  name : String
  description : Option String := none
  parameters : Option JsonObject := none
deriving DecidableEq

structure Tool where
  functionDeclarations : Option (List FunctionDeclaration) := none
deriving DecidableEq

structure GenerateContentParameters where
  model : String
  contents : List Content := []
  systemInstruction : Option Content := none
  config : Option GenerateContentConfig := none
  tools : Option (List Tool) := none
deriving DecidableEq

structure OllamaToolCallFunction where
  name : String
  arguments : JsonObject
deriving DecidableEq

/-- Ollama tool call; field func models the JSON field named "function". -/
structure OllamaToolCall where
  func : OllamaToolCallFunction
deriving DecidableEq

structure OllamaMessage where
  role : String
  content : String
  images : Option (List String) := none
  tool_calls : Option (List OllamaToolCall) := none
deriving DecidableEq

structure OllamaOptions where
  temperature : Option Rat := none
  top_p : Option Rat := none
  top_k : Option Rat := none
  num_predict : Option Rat := none
  stop : Option (List String) := none
  seed : Option Rat := none
  num_ctx : Option Rat := none
deriving DecidableEq

/-- Ollama tool declaration; field func models the JSON field named
"function". -/
structure OllamaToolFunction where
  name : String
  description : String
  parameters : JsonObject
deriving DecidableEq

structure OllamaTool where
  type : String
  func : OllamaToolFunction
deriving DecidableEq

structure OllamaRequest where
  model : String
  messages : List OllamaMessage
  options : Option OllamaOptions
  stream : Bool
  tools : Option (List OllamaTool)
deriving DecidableEq

/-- Mirrors extractTextFromContent: text of every part carrying a truthy
text key, the empty entries filtered out, joined by a newline. -/
def extractTextFromContent (content : Content) : String :=
  String.intercalate "\n"
    ((content.parts.map (fun p => match p with
        | Part.text s => s
        | _ => "")).filter (fun t => decide (t.length > 0)))

/-- Accumulator of the part loop inside convertContentToMessage. -/
structure ConvAcc where
  role : String
  textParts : List String
  images : List String
  toolCalls : Option (List OllamaToolCall)
deriving DecidableEq

/-- One iteration of the part loop of convertContentToMessage. A text part
with empty string is falsy in the source's key test and contributes nothing;
an inline-data part contributes an image only when its MIME type starts with
image/; a function-response part forces the role to tool and appends the
JSON-serialized payload to the text parts. -/
def convStep (acc : ConvAcc) (p : Part) : ConvAcc :=
  match p with
  | Part.text s => if s ≠ "" then { acc with textParts := acc.textParts ++ [s] } else acc
  | Part.inlineData mime dat =>
      match mime with
      | some m => if m.startsWith "image/" then { acc with images := acc.images ++ [dat] } else acc
      | none => acc
  | Part.functionCall name args =>
      { acc with toolCalls := some ((acc.toolCalls.getD []) ++ [⟨⟨name, args.getD []⟩⟩]) }
  | Part.functionResponse payload =>
      { acc with role := "tool", textParts := acc.textParts ++ [payload] }
  | Part.other => acc

/-- Initial role before the part loop: model maps to assistant, function to
tool, and everything else (user, system, absent, unrecognized) to user. -/
def initRole (content : Content) : String :=
  if content.role = some "model" then "assistant"
  else if content.role = some "function" then "tool"
  else "user"

/-- Mirrors convertContentToMessage: returns none exactly when the parts
list is empty or absent; otherwise folds the part loop and assembles the
message, attaching images / tool_calls only when nonempty. -/
def convertContentToMessage (content : Content) : Option OllamaMessage :=
  if content.parts.isEmpty then none
  else
    let acc := content.parts.foldl convStep ⟨initRole content, [], [], none⟩
    some { role := acc.role
           content := String.intercalate "\n" acc.textParts
           images := if acc.images.length > 0 then some acc.images else none
           tool_calls := match acc.toolCalls with
             | some tcs => if tcs.length > 0 then some tcs else none
             | none => none }

/-- Mirrors convertGenerationConfig: copies each set field under its rename,
treats an empty stopSequences list as unset, and returns undefined when the
resulting options object has no keys. -/
def convertGenerationConfig (config : Option GenerateContentConfig) : Option OllamaOptions :=
  match config with
  | none => none
  | some config =>
      let options : OllamaOptions :=
        { temperature := config.temperature
          top_p := config.topP
          top_k := config.topK
          num_predict := config.maxOutputTokens
          stop := match config.stopSequences with
            | some l => if l.length > 0 then some l else none
            | none => none
          seed := config.seed
          num_ctx := none }
      if options.temperature.isSome || options.top_p.isSome || options.top_k.isSome ||
         options.num_predict.isSome || options.stop.isSome || options.seed.isSome ||
         options.num_ctx.isSome
      then some options else none

/-- Mirrors convertFunctionToTool. -/
def convertFunctionToTool (fn : FunctionDeclaration) : OllamaTool :=
  { type := "function"
    func := { name := fn.name
              description := fn.description.getD ""
              parameters := fn.parameters.getD [] } }

/-- Mirrors convertToOllamaRequest: optional leading system message, the
per-turn conversion keeping only non-null messages, option conversion, and
tool flattening with the empty list collapsed to undefined. -/
def convertToOllamaRequest (params : GenerateContentParameters) (stream : Bool) : OllamaRequest :=
  let sysMsgs : List OllamaMessage :=
    match params.systemInstruction with
    | some content =>
        let t := extractTextFromContent content
        if t ≠ "" then [{ role := "system", content := t }] else []
    | none => []
  let msgs := params.contents.filterMap convertContentToMessage
  let options := convertGenerationConfig params.config
  let tools : Option (List OllamaTool) :=
    match params.tools with
    | some ts =>
        some ((ts.map (fun t => match t.functionDeclarations with
          | some fns => fns.map convertFunctionToTool
          | none => [])).flatten)
    | none => none
  { model := params.model
    messages := sysMsgs ++ msgs
    options := options
    stream := stream
    tools := match tools with
      | some ts => if ts.length > 0 then some ts else none
      | none => none }

def isFunctionResponsePart : Part → Bool
  | Part.functionResponse _ => true
  | _ => false

lemma convStep_role (acc : ConvAcc) (p : Part) :
    (convStep acc p).role = if isFunctionResponsePart p then "tool" else acc.role := by
  cases p with
  | text s =>
      simp only [convStep, isFunctionResponsePart, Bool.false_eq_true, if_false]
      split <;> rfl
  | inlineData mime dat =>
      simp only [convStep, isFunctionResponsePart, Bool.false_eq_true, if_false]
      cases mime
      · rfl
      · dsimp only
        split <;> rfl
  | functionCall name args =>
      simp only [convStep, isFunctionResponsePart, Bool.false_eq_true, if_false]
  | functionResponse payload =>
      simp only [convStep, isFunctionResponsePart, if_true]
  | other =>
      simp only [convStep, isFunctionResponsePart, Bool.false_eq_true, if_false]

lemma foldl_convStep_role (parts : List Part) (acc : ConvAcc) :
    (parts.foldl convStep acc).role =
      if parts.any isFunctionResponsePart then "tool" else acc.role := by
  induction parts generalizing acc with
  | nil => simp
  | cons p rest ih =>
      rw [List.foldl_cons, ih, List.any_cons, convStep_role]
      cases h : isFunctionResponsePart p <;>
        cases h2 : rest.any isFunctionResponsePart <;> simp [h, h2]

/-- C1 (amended): a turn is dropped (converts to none) exactly when its
parts list is empty or absent; a turn with a nonempty parts list always
produces a message that is appended, even when that message carries empty
content, no images and no tool calls. -/
theorem C1_turn_dropped_iff_parts_empty (content : Content) :
    (convertContentToMessage content).isNone = content.parts.isEmpty := by
  cases h : content.parts.isEmpty <;> simp [convertContentToMessage, h]

/-- C1 counterexample to the claim as stated: a turn whose single part is an
empty-text part reduces to empty content with no images and no tool calls,
yet its message is appended to the local message list. -/
theorem C1_counterexample :
    (convertToOllamaRequest { model := "m", contents := [{ role := some "user", parts := [Part.text ""] }] } false).messages
      = [{ role := "user", content := "" }] := by decide

/-- C10: for a turn with a nonempty parts list whose role is neither model
nor function (including system, an absent role, and any unrecognized role
string), the produced message's role is user, unless the turn contains a
functionResponse part, in which case it is tool. -/
theorem C10_role_total_mapping (content : Content) (m : OllamaMessage)
    (hm : convertContentToMessage content = some m)
    (h1 : content.role ≠ some "model") (h2 : content.role ≠ some "function") :
    m.role = if content.parts.any isFunctionResponsePart then "tool" else "user" := by
  unfold convertContentToMessage at hm
  by_cases hp : content.parts.isEmpty
  · simp [hp] at hm
  · simp only [hp, if_false, Bool.false_eq_true] at hm
    have : m.role = (content.parts.foldl convStep ⟨initRole content, [], [], none⟩).role := by
      cases hm; rfl
    rw [this, foldl_convStep_role]
    have hrole : initRole content = "user" := by
      unfold initRole
      rw [if_neg h1, if_neg h2]
    rw [hrole]

/-- C10 witness: a system-role turn with a single text part produces a
user-role message. -/
theorem C10_witness :
    (⟨"user", "x", none, none⟩ : OllamaMessage).role
      = if ([Part.text "x"].any isFunctionResponsePart) then "tool" else "user" :=
  C10_role_total_mapping ⟨some "system", [Part.text "x"]⟩ ⟨"user", "x", none, none⟩
    (by decide) (by decide) (by decide)

/-- Effective field of an optional options object: none when the whole
object is undefined. -/
def optsField (o : Option OllamaOptions) (f : OllamaOptions → Option α) : Option α :=
  match o with
  | none => none
  | some x => f x

/-- C9: the request converter copies into the Ollama options exactly the
generation-config fields the caller set, under the renames temperature,
topP to top_p, topK to top_k, maxOutputTokens to num_predict, stopSequences
to stop (an empty list counting as unset), seed; and the options field is
undefined precisely when no field was set. -/
theorem C9_generation_config_copied (c : GenerateContentConfig) :
    optsField (convertGenerationConfig (some c)) OllamaOptions.temperature = c.temperature
    ∧ optsField (convertGenerationConfig (some c)) OllamaOptions.top_p = c.topP
    ∧ optsField (convertGenerationConfig (some c)) OllamaOptions.top_k = c.topK
    ∧ optsField (convertGenerationConfig (some c)) OllamaOptions.num_predict = c.maxOutputTokens
    ∧ optsField (convertGenerationConfig (some c)) OllamaOptions.stop
        = (match c.stopSequences with
           | some l => if l.length > 0 then some l else none
           | none => none)
    ∧ optsField (convertGenerationConfig (some c)) OllamaOptions.seed = c.seed
    ∧ optsField (convertGenerationConfig (some c)) OllamaOptions.num_ctx = none
    ∧ (convertGenerationConfig (some c)).isNone
        = (c.temperature.isNone && c.topP.isNone && c.topK.isNone &&
           c.maxOutputTokens.isNone && (c.stopSequences.getD []).isEmpty && c.seed.isNone)
    ∧ convertGenerationConfig none = none := by
  obtain ⟨t, p, k, m, s, sd⟩ := c
  rcases s with _ | ⟨_ | ⟨x, xs⟩⟩ <;>
    cases t <;> cases p <;> cases k <;> cases m <;> cases sd <;>
      simp [convertGenerationConfig, optsField]

inductive FinishReason
  | STOP
  | MAX_TOKENS
deriving DecidableEq

structure UsageMetadata where
  promptTokenCount : Nat
  candidatesTokenCount : Nat
  totalTokenCount : Nat
deriving DecidableEq

/-- Response-side Gemini content part: one text part or one function call. -/
inductive RespPart
  | text (s : String)
  | functionCall (name : String) (args : JsonObject)
deriving DecidableEq

structure CandidateContent where
  role : String
  parts : List RespPart
deriving DecidableEq

structure Candidate where
  content : CandidateContent
  finishReason : Option FinishReason
  index : Nat
deriving DecidableEq

structure GenerateContentResponse where
  candidates : List Candidate
  usageMetadata : Option UsageMetadata := none
  modelVersion : String
deriving DecidableEq

structure OllamaResponse where
  model : String
  created_at : String := ""
  message : OllamaMessage
  done : Bool
  done_reason : Option String := none
  prompt_eval_count : Option Nat := none
  eval_count : Option Nat := none
deriving DecidableEq

structure OllamaStreamMessage where
  role : String
  content : String
deriving DecidableEq

structure OllamaStreamChunk where
  model : String
  created_at : String := ""
  message : Option OllamaStreamMessage := none
  done : Bool
  done_reason : Option String := none
  prompt_eval_count : Option Nat := none
  eval_count : Option Nat := none
deriving DecidableEq

/-- Mirrors convertToGeminiResponse: finish-reason chain defaulting to STOP,
a text part for nonempty content followed by one function-call part per
tool call, usage metadata from the eval counters defaulting to zero, and the
local model echoed as model version. -/
def convertToGeminiResponse (response : OllamaResponse) : GenerateContentResponse :=
  let finishReason : FinishReason :=
    if response.done_reason = some "stop" then FinishReason.STOP
    else if response.done_reason = some "length" then FinishReason.MAX_TOKENS
    else if response.done then FinishReason.STOP
    else FinishReason.STOP
  let parts : List RespPart :=
    (if response.message.content ≠ "" then [RespPart.text response.message.content] else [])
    ++ (match response.message.tool_calls with
        | some tcs => tcs.map (fun tc => RespPart.functionCall tc.func.name tc.func.arguments)
        | none => [])
  { candidates := [{ content := { role := "model", parts := parts }
                     finishReason := some finishReason
                     index := 0 }]
    usageMetadata := some
      { promptTokenCount := response.prompt_eval_count.getD 0
        candidatesTokenCount := response.eval_count.getD 0
        totalTokenCount := response.prompt_eval_count.getD 0 + response.eval_count.getD 0 }
    modelVersion := response.model }

/-- Mirrors convertStreamChunkToGeminiResponse: a text part only for a chunk
whose message carries nonempty content, a finish reason only on the terminal
chunk, and usage metadata only on the terminal chunk. The source's second
argument isFirst is unused there and is omitted here. -/
def convertStreamChunkToGeminiResponse (chunk : OllamaStreamChunk) : GenerateContentResponse :=
  let parts : List RespPart :=
    match chunk.message with
    | some m => if m.content ≠ "" then [RespPart.text m.content] else []
    | none => []
  let finishReason : Option FinishReason :=
    if chunk.done then
      some (if chunk.done_reason = some "length" then FinishReason.MAX_TOKENS
            else FinishReason.STOP)
    else none
  { candidates := [{ content := { role := "model", parts := parts }
                     finishReason := finishReason
                     index := 0 }]
    usageMetadata :=
      if chunk.done then
        some { promptTokenCount := chunk.prompt_eval_count.getD 0
               candidatesTokenCount := chunk.eval_count.getD 0
               totalTokenCount := chunk.prompt_eval_count.getD 0 + chunk.eval_count.getD 0 }
      else none
    modelVersion := chunk.model }

/-- C7: in both response conversions the usage metadata's total token count
is the sum of prompt and candidates counts with absent server counters
defaulting to zero, and in the stream-chunk conversion the usage metadata is
present exactly on the terminal chunk (done = true) and absent otherwise. -/
theorem C7_usage_metadata_sum_and_terminal_only :
    (∀ r : OllamaResponse,
      (convertToGeminiResponse r).usageMetadata = some
        { promptTokenCount := r.prompt_eval_count.getD 0
          candidatesTokenCount := r.eval_count.getD 0
          totalTokenCount := r.prompt_eval_count.getD 0 + r.eval_count.getD 0 })
    ∧ (∀ c : OllamaStreamChunk,
      (convertStreamChunkToGeminiResponse c).usageMetadata =
        if c.done then
          some { promptTokenCount := c.prompt_eval_count.getD 0
                 candidatesTokenCount := c.eval_count.getD 0
                 totalTokenCount := c.prompt_eval_count.getD 0 + c.eval_count.getD 0 }
        else none) :=
  ⟨fun _ => rfl, fun _ => rfl⟩

/-
Token estimators of ollamaTokenizer.ts. Texts are modelled as character
lists. The source accumulates fractional weights (1, 1.5, 0.5, 0.3) in a
JavaScript number and applies one final Math.ceil; this is modelled exactly
in tenths of a token (10, 15, 5, 3) with a final ceiling division by 10,
which agrees with the double-precision computation for all realistic input
sizes.
-/

/-- Splits a character list at characters satisfying p, consuming them; the
source's split(regex) followed by filtering out empty pieces is
splitByPred followed by the same filter. -/
def splitByPredAux (p : Char → Bool) : List Char → List Char → List (List Char)
  | [], acc => [acc.reverse]
  | c :: r, acc =>
      if p c then acc.reverse :: splitByPredAux p r []
      else splitByPredAux p r (c :: acc)

def splitByPred (p : Char → Bool) (l : List Char) : List (List Char) :=
  (splitByPredAux p l []).filter (fun w => w ≠ [])

/-- Words of the primary estimator: text.split on whitespace runs, empties
removed. -/
def wordsOf (text : List Char) : List (List Char) := splitByPred isJsWs text

/-- Punctuation class of the primary estimator. The brace characters are
written numerically (codes 123 and 125), as are the apostrophe (39). -/
def punctChars : List Char :=
  ['.', ',', '!', '?', ';', ':', Char.ofNat 39, '"', '(', ')', '[', ']',
   Char.ofNat 123, Char.ofNat 125]

def isPunctChar (c : Char) : Bool := punctChars.contains c

/-- Digit / symbol class of the primary estimator; code 96 is the backquote. -/
def specialSymbolChars : List Char :=
  ['@', '#', '$', '%', '^', '&', '*', '+', '=', '<', '>', '/', '\\', '|',
   Char.ofNat 96, '~']

def isSpecialChar (c : Char) : Bool := c.isDigit || specialSymbolChars.contains c

/-- Weight of one word in tenths of a token: 1 token up to six characters,
1.5 up to twelve, one per four characters beyond that, plus half a token per
punctuation character in the word. -/
def wordUnits (w : List Char) : Nat :=
  (if w.length ≤ 6 then 10
   else if w.length ≤ 12 then 15
   else 10 * ((w.length + 3) / 4))
  + 5 * (w.filter isPunctChar).length

/-- Mirrors estimateTokenCount: word weights plus 0.3 per digit/symbol
character over the whole text, with a single final ceiling. -/
def estimateTokenCount (text : List Char) : Nat :=
  if text.isEmpty then 0
  else
    (((wordsOf text).map wordUnits).sum + 3 * (text.filter isSpecialChar).length + 9) / 10

/-- Mirrors estimateTokenCountSimple: ceil of length over four. -/
def estimateTokenCountSimple (text : List Char) : Nat :=
  if text.isEmpty then 0 else (text.length + 3) / 4

/-- Code-delimiter class of the code estimator. -/
def codeDelimChars : List Char :=
  ['(', ')', Char.ofNat 123, Char.ofNat 125, '[', ']', ';', ',', '.']

def isCodeDelim (c : Char) : Bool := isJsWs c || codeDelimChars.contains c

def isAsciiUpper (c : Char) : Bool := decide ('A' ≤ c) && decide (c ≤ 'Z')

/-- Splits a long identifier on underscores, hyphens and before uppercase
letters (the source's split on the pattern matching an underscore or hyphen
or a lookahead of an uppercase letter), with empty pieces removed by the
caller's filter. -/
def splitIdentAux : List Char → List Char → List (List Char)
  | [], acc => [acc.reverse]
  | c :: r, acc =>
      if c = '_' || c = '-' then acc.reverse :: splitIdentAux r []
      else if isAsciiUpper c then acc.reverse :: splitIdentAux r [c]
      else splitIdentAux r (c :: acc)

def identParts (t : List Char) : List (List Char) :=
  (splitIdentAux t []).filter (fun w => w ≠ [])

/-- Weight of one code token: 1 up to eight characters, otherwise the number
of case/underscore segments (at least 1). -/
def codeTokenUnits (t : List Char) : Nat :=
  if t.length ≤ 8 then 1 else max (identParts t).length 1

def operatorChars : List Char :=
  ['=', '+', '-', '*', '/', '%', '<', '>', '&', '|', '!', '~', '^']

def isOperatorChar (c : Char) : Bool := operatorChars.contains c

/-- Quote characters of the string-literal pattern: double quote, apostrophe
(39) and backquote (96). -/
def quoteChars : List Char := ['"', Char.ofNat 39, Char.ofNat 96]

def isQuoteChar (c : Char) : Bool := quoteChars.contains c

/-- Count of matches of the string-literal pattern (a quote, a possibly
empty run of non-quote characters, a quote) scanned globally left to right,
exactly as the JavaScript regex engine pairs quote characters. -/
def countStringLiterals : List Char → Bool → Nat
  | [], _ => 0
  | c :: r, false => countStringLiterals r (isQuoteChar c)
  | c :: r, true =>
      if isQuoteChar c then 1 + countStringLiterals r false
      else countStringLiterals r true

/-- Mirrors estimateTokenCountForCode: delimiter-split tokens weighted by
identifier segmentation, plus one per operator character, plus two per
string literal. The final Math.ceil acts on an integer and is omitted. -/
def estimateTokenCountForCode (code : List Char) : Nat :=
  if code.isEmpty then 0
  else
    ((splitByPred isCodeDelim code).map codeTokenUnits).sum
    + (code.filter isOperatorChar).length
    + 2 * countStringLiterals code false

/-- Backquote character. -/
def btChar : Char := Char.ofNat 96

/-- Finds the first occurrence of a triple backquote, returning the
characters before it and the characters after it. -/
def findTripleTick : List Char → Option (List Char × List Char)
  | [] => none
  | c :: r =>
      if [btChar, btChar, btChar].isPrefixOf (c :: r) then some ([], r.drop 2)
      else match findTripleTick r with
           | some (a, b) => some (c :: a, b)
           | none => none

lemma findTripleTick_rest_length : ∀ (l a b : List Char),
    findTripleTick l = some (a, b) → b.length < l.length := by
  intro l
  induction l with
  | nil => intro a b h; simp [findTripleTick] at h
  | cons c r ih =>
      intro a b h
      unfold findTripleTick at h
      by_cases hp : [btChar, btChar, btChar].isPrefixOf (c :: r) = true
      · rw [if_pos hp] at h
        cases h
        have : (r.drop 2).length ≤ r.length := by
          rw [List.length_drop]; omega
        simp only [List.length_cons]; omega
      · rw [if_neg hp] at h
        cases hft : findTripleTick r with
        | none => rw [hft] at h; cases h
        | some ab =>
            obtain ⟨a0, b0⟩ := ab
            rw [hft] at h
            simp only [Option.some.injEq, Prod.mk.injEq] at h
            obtain ⟨ha, hb⟩ := h
            subst hb
            have := ih a0 b0 hft
            simp only [List.length_cons]; omega

/-- Matches one code span of the mixed estimator's splitting pattern at the
start of s: a lazily closed triple-backquote fence, or an inline backquote
span with at least one non-backquote character. Returns the matched span
and the remainder, or none when neither alternative matches here. -/
def matchCodeSpan (s : List Char) : Option (List Char × List Char) :=
  if [btChar, btChar, btChar].isPrefixOf s then
    match findTripleTick (s.drop 3) with
    | some (mid, rest) => some ([btChar, btChar, btChar] ++ mid ++ [btChar, btChar, btChar], rest)
    | none => none
  else if [btChar].isPrefixOf s then
    let mid := (s.drop 1).takeWhile (fun c => c ≠ btChar)
    let rest := (s.drop 1).drop mid.length
    if mid ≠ [] && [btChar].isPrefixOf rest then some ([btChar] ++ mid ++ [btChar], rest.drop 1)
    else none
  else none

lemma matchCodeSpan_rest_length (s m rest : List Char)
    (h : matchCodeSpan s = some (m, rest)) : rest.length < s.length := by
  unfold matchCodeSpan at h
  by_cases h3 : [btChar, btChar, btChar].isPrefixOf s = true
  · rw [if_pos h3] at h
    cases hft : findTripleTick (s.drop 3) with
    | none => rw [hft] at h; cases h
    | some ab =>
        obtain ⟨mid, rest0⟩ := ab
        rw [hft] at h
        cases h
        have h1 := findTripleTick_rest_length _ _ _ hft
        have h2 : (s.drop 3).length ≤ s.length := by rw [List.length_drop]; omega
        omega
  · rw [if_neg h3] at h
    by_cases h1 : [btChar].isPrefixOf s = true
    · rw [if_pos h1] at h
      have hs : s ≠ [] := by
        intro hnil; rw [hnil] at h1; simp [List.isPrefixOf] at h1
      by_cases hc : ((s.drop 1).takeWhile (fun c => c ≠ btChar) ≠ [] &&
          [btChar].isPrefixOf ((s.drop 1).drop ((s.drop 1).takeWhile (fun c => c ≠ btChar)).length)) = true
      · rw [if_pos hc] at h
        cases h
        have hd1 : (s.drop 1).length < s.length := by
          rw [List.length_drop]
          cases s with
          | nil => exact absurd rfl hs
          | cons a as => simp
        have hd2 : (((s.drop 1).drop ((s.drop 1).takeWhile (fun c => c ≠ btChar)).length).drop 1).length
            ≤ (s.drop 1).length := by
          rw [List.length_drop, List.length_drop]; omega
        omega
      · rw [if_neg hc] at h; cases h
    · rw [if_neg h1] at h; cases h

/-- Mirrors the split of the mixed estimator on its code-span pattern with a
capture group: the result alternates unmatched text and matched spans, in
order, exactly as the JavaScript split returns them (empty text pieces
included). The recursion is fuelled to stay structural; by
matchCodeSpan_rest_length the remainder of the input always shrinks, so a
fuel of the input's length never runs out (splitCodePartsAux_fuel below),
and the zero-fuel fallback is unreachable from splitCodeParts. -/
def splitCodePartsAux : Nat → List Char → List Char → List (List Char)
  | _, [], acc => [acc.reverse]
  | Nat.succ fuel, c :: r, acc =>
      match matchCodeSpan (c :: r) with
      | some (m, rest) => acc.reverse :: m :: splitCodePartsAux fuel rest []
      | none => splitCodePartsAux fuel r (c :: acc)
  | 0, s, acc => [acc.reverse ++ s]

def splitCodeParts (s : List Char) : List (List Char) := splitCodePartsAux s.length s []

lemma splitCodePartsAux_fuel : ∀ (f1 f2 : Nat) (s acc : List Char),
    s.length ≤ f1 → s.length ≤ f2 →
    splitCodePartsAux f1 s acc = splitCodePartsAux f2 s acc := by
  intro f1
  induction f1 with
  | zero =>
      intro f2 s acc h1 h2
      cases s with
      | nil => cases f2 <;> rfl
      | cons c r => simp at h1
  | succ g1 ih =>
      intro f2 s acc h1 h2
      cases s with
      | nil => cases f2 <;> rfl
      | cons c r =>
          cases f2 with
          | zero => simp at h2
          | succ g2 =>
              unfold splitCodePartsAux
              cases hm : matchCodeSpan (c :: r) with
              | none =>
                  simp only [List.length_cons] at h1 h2
                  exact ih g2 r (c :: acc) (by omega) (by omega)
              | some pair =>
                  obtain ⟨m, rest⟩ := pair
                  have hlt := matchCodeSpan_rest_length (c :: r) m rest hm
                  simp only [List.length_cons] at h1 h2 hlt
                  dsimp only
                  rw [ih g2 rest [] (by omega) (by omega)]

def isWordCharJs (c : Char) : Bool := c.isAlpha || c.isDigit || c = '_'

/-- Mirrors the replace of the leading fence: a triple backquote, a run of
word characters, and an optional newline are removed from the front when
present. -/
def stripLeadFence (p : List Char) : List Char :=
  if [btChar, btChar, btChar].isPrefixOf p then
    let q := (p.drop 3).dropWhile isWordCharJs
    match q with
    | '\n' :: q2 => q2
    | _ => q
  else p

/-- Mirrors the replace of the trailing fence: a final triple backquote is
removed when present. -/
def stripTrailFence (p : List Char) : List Char :=
  if [btChar, btChar, btChar].isSuffixOf p then p.dropLast.dropLast.dropLast else p

/-- Mirrors estimateTokenCountMixed: split on code spans, dispatch each part
starting with a backquote to the code estimator after stripping fences, and
every other part to the word estimator, summing the results. -/
def estimateTokenCountMixed (content : List Char) : Nat :=
  if content.isEmpty then 0
  else
    ((splitCodeParts content).map (fun part =>
      if [btChar, btChar, btChar].isPrefixOf part || [btChar].isPrefixOf part then
        estimateTokenCountForCode (stripTrailFence (stripLeadFence part))
      else estimateTokenCount part)).sum

lemma splitByPredAux_filter_ne_nil (p : Char → Bool) :
    ∀ (t : List Char) (acc : List Char),
      ((∃ c ∈ t, p c = false) ∨ acc ≠ []) →
      (splitByPredAux p t acc).filter (fun w => w ≠ []) ≠ [] := by
  intro t
  induction t with
  | nil =>
      intro acc h
      rcases h with h | h
      · obtain ⟨c, hc, _⟩ := h; cases hc
      · have hrev : acc.reverse ≠ [] := fun hr => h (List.reverse_eq_nil_iff.mp hr)
        unfold splitByPredAux
        rw [List.filter_cons]
        split
        · exact List.cons_ne_nil _ _
        · next hcond =>
            exact absurd (decide_eq_true hrev) hcond
  | cons c r ih =>
      intro acc h
      unfold splitByPredAux
      by_cases hp : p c = true
      · rw [if_pos hp]
        by_cases hacc : acc = []
        · subst hacc
          have hr : (∃ d ∈ r, p d = false) ∨ ([] : List Char) ≠ [] := by
            left
            rcases h with h | h
            · obtain ⟨d, hd, hpd⟩ := h
              rcases List.mem_cons.mp hd with rfl | hd'
              · rw [hp] at hpd; cases hpd
              · exact ⟨d, hd', hpd⟩
            · exact absurd rfl h
          have hrec := ih [] hr
          rw [List.filter_cons]
          split
          · exact List.cons_ne_nil _ _
          · exact hrec
        · have hrev : acc.reverse ≠ [] := fun hr2 => hacc (List.reverse_eq_nil_iff.mp hr2)
          rw [List.filter_cons]
          split
          · exact List.cons_ne_nil _ _
          · next hcond =>
              exact absurd (decide_eq_true hrev) hcond
      · rw [if_neg hp]
        exact ih (c :: acc) (Or.inr (List.cons_ne_nil c acc))

lemma wordUnits_ge_ten (w : List Char) : 10 ≤ wordUnits w := by
  unfold wordUnits
  have h5 : 0 ≤ 5 * (w.filter isPunctChar).length := Nat.zero_le _
  by_cases h6 : w.length ≤ 6
  · rw [if_pos h6]; omega
  · rw [if_neg h6]
    by_cases h12 : w.length ≤ 12
    · rw [if_pos h12]; omega
    · rw [if_neg h12]
      have : 4 ≤ (w.length + 3) / 4 := by omega
      omega

/-- C4 (amended): all four estimators return a natural number, are
deterministic by construction, and return 0 on the empty string;
estimateTokenCountSimple returns at least 1 on every nonempty input, and
estimateTokenCount returns at least 1 on every input containing a
non-whitespace character; whitespace-only nonempty inputs make
estimateTokenCount, estimateTokenCountForCode and estimateTokenCountMixed
return 0, so those three do not return at least 1 on every nonempty input. -/
theorem C4_estimators_zero_on_empty_and_positive :
    estimateTokenCount [] = 0
    ∧ estimateTokenCountSimple [] = 0
    ∧ estimateTokenCountForCode [] = 0
    ∧ estimateTokenCountMixed [] = 0
    ∧ (∀ t : List Char, t ≠ [] → 1 ≤ estimateTokenCountSimple t)
    ∧ (∀ t : List Char, (∃ c ∈ t, isJsWs c = false) → 1 ≤ estimateTokenCount t) := by
  refine ⟨rfl, rfl, rfl, rfl, ?_, ?_⟩
  · intro t ht
    unfold estimateTokenCountSimple
    rw [if_neg (by simpa using ht)]
    have : 1 ≤ t.length := by
      cases t with
      | nil => exact absurd rfl ht
      | cons a as => simp
    omega
  · intro t ht
    have htne : t ≠ [] := by
      obtain ⟨c, hc, _⟩ := ht
      intro hnil
      rw [hnil] at hc
      cases hc
    unfold estimateTokenCount
    rw [if_neg (by simpa using htne)]
    have hw : wordsOf t ≠ [] := splitByPredAux_filter_ne_nil isJsWs t [] (Or.inl ht)
    obtain ⟨w, ws, hws⟩ : ∃ w ws, wordsOf t = w :: ws := by
      cases hwo : wordsOf t with
      | nil => exact absurd hwo hw
      | cons w ws => exact ⟨w, ws, rfl⟩
    have hsum : 10 ≤ ((wordsOf t).map wordUnits).sum := by
      rw [hws, List.map_cons, List.sum_cons]
      have := wordUnits_ge_ten w
      omega
    omega

/-- C4 witness: the simple estimator on a two-character input and the word
estimator on an input containing a non-whitespace character are both at
least 1. -/
theorem C4_witness :
    1 ≤ estimateTokenCountSimple ('h' :: ['i']) ∧ 1 ≤ estimateTokenCount ('h' :: ['i']) :=
  ⟨C4_estimators_zero_on_empty_and_positive.2.2.2.2.1 ('h' :: ['i']) (by decide),
   C4_estimators_zero_on_empty_and_positive.2.2.2.2.2 ('h' :: ['i'])
     ⟨'h', by decide, by decide⟩⟩

/-- C4 counterexample to the claim as stated: a single space is a nonempty
input on which the word-based estimator returns 0 (the code and mixed
estimators return 0 on it as well). -/
theorem C4_counterexample :
    estimateTokenCount [' '] = 0 ∧ estimateTokenCountForCode [' '] = 0
    ∧ estimateTokenCountMixed [' '] = 0 ∧ ([' '] : List Char) ≠ [] := by
  refine ⟨by decide, by decide, ?_, by decide⟩
  decide

/-
Streaming frame decoder of parseStreamingResponse in
ollamaContentGenerator.ts. Byte chunks are modelled as character lists (the
TextDecoder in stream mode reassembles UTF-8 sequences split across chunks,
so the decoder's observable input is a character stream). JSON.parse of one
line is an external library call and is a parameter of the pipeline, a parse
failure being none.
-/

def consFirst (pre : List Char) : List (List Char) → List (List Char)
  | [] => [pre]
  | l :: ls => (pre ++ l) :: ls

/-- Mirrors buffer.split on the newline character. -/
def splitNl : List Char → List (List Char)
  | [] => [[]]
  | c :: r => if c = '\n' then [] :: splitNl r else consFirst [c] (splitNl r)

/-- Mirrors lines.pop() with its fallback to the empty string. -/
def lastLine : List (List Char) → List Char
  | [] => []
  | [l] => l
  | _ :: l :: ls => lastLine (l :: ls)

/-- Line blank after trimming (line.trim() equal to the empty string). -/
def isBlankLine (l : List Char) : Bool := l.all isJsWs

/-- Record extracted from one complete line: a blank line is skipped, any
other line is JSON-parsed, a failure being skipped as well. The same
treatment applies to the residual buffer at end of source. -/
def lineRecord (parse : List Char → Option OllamaStreamChunk) (line : List Char) :
    Option OllamaStreamChunk :=
  if isBlankLine line then none else parse line

/-- The per-chunk loop of parseStreamingResponse: append the incoming chunk
to the buffer, split on newlines, keep the last piece as the new buffer, and
extract a record from every other piece. Returns the loop's records in order
together with the final buffer. -/
def runDecoder (parse : List Char → Option OllamaStreamChunk) :
    List (List Char) → List Char → List OllamaStreamChunk × List Char
  | [], buffer => ([], buffer)
  | chunk :: rest, buffer =>
      let ls := splitNl (buffer ++ chunk)
      let out := runDecoder parse rest (lastLine ls)
      ((ls.dropLast).filterMap (lineRecord parse) ++ out.1, out.2)

/-- All records the decoder produces on a chunk sequence: the loop records
followed by the record parsed from the nonblank residual buffer, if any. -/
def decodeRecords (parse : List Char → Option OllamaStreamChunk)
    (chunks : List (List Char)) : List OllamaStreamChunk :=
  (runDecoder parse chunks []).1
  ++ (lineRecord parse (runDecoder parse chunks []).2).toList

/-- The facade's emptiness test on a converted fragment:
candidates[0].content.parts exists and has positive length. -/
def respHasParts (g : GenerateContentResponse) : Bool :=
  match g.candidates with
  | [] => false
  | cand :: _ => decide (cand.content.parts.length > 0)

/-- The yield filter of the main loop: a record's fragment is yielded only
when it has parts or the record is terminal. -/
def emitFilter (c : OllamaStreamChunk) : Option GenerateContentResponse :=
  let g := convertStreamChunkToGeminiResponse c
  if respHasParts g || c.done then some g else none

/-- Mirrors parseStreamingResponse: fragments of the loop records that pass
the yield filter, in order, followed by the fragment of the residual-buffer
record, which the source yields without applying the filter. -/
def parseStreamingResponse (parse : List Char → Option OllamaStreamChunk)
    (chunks : List (List Char)) : List GenerateContentResponse :=
  (runDecoder parse chunks []).1.filterMap emitFilter
  ++ ((lineRecord parse (runDecoder parse chunks []).2).map
        convertStreamChunkToGeminiResponse).toList

lemma splitNl_cons (c : Char) (r : List Char) :
    splitNl (c :: r) = if c = '\n' then [] :: splitNl r else consFirst [c] (splitNl r) := rfl

lemma splitNl_cons_nl (r : List Char) : splitNl ('\n' :: r) = [] :: splitNl r := by
  rw [splitNl_cons, if_pos rfl]

lemma splitNl_cons_ne (c : Char) (r : List Char) (hc : c ≠ '\n') :
    splitNl (c :: r) = consFirst [c] (splitNl r) := by
  rw [splitNl_cons, if_neg hc]

lemma splitNl_ne_nil (l : List Char) : splitNl l ≠ [] := by
  induction l with
  | nil => simp [splitNl]
  | cons c r ih =>
      rw [splitNl_cons]
      split
      · exact List.cons_ne_nil _ _
      · cases h : splitNl r with
        | nil => exact absurd h ih
        | cons m ms => simp [consFirst]

lemma exists_splitNl_cons (l : List Char) : ∃ m ms, splitNl l = m :: ms := by
  cases h : splitNl l with
  | nil => exact absurd h (splitNl_ne_nil l)
  | cons m ms => exact ⟨m, ms, rfl⟩

lemma consFirst_ne_nil (pre : List Char) (ls : List (List Char)) : consFirst pre ls ≠ [] := by
  cases ls <;> simp [consFirst]

lemma splitNl_no_newline : ∀ (l : List Char), '\n' ∉ l → splitNl l = [l] := by
  intro l
  induction l with
  | nil => intro _; rfl
  | cons c r ih =>
      intro h
      have hc : c ≠ '\n' := fun he => h (he ▸ List.mem_cons_self c r)
      have hr : '\n' ∉ r := fun hm => h (List.mem_cons_of_mem c hm)
      rw [splitNl_cons_ne c r hc, ih hr]
      rfl

lemma splitNl_mem_no_newline : ∀ (l : List Char) (x : List Char), x ∈ splitNl l → '\n' ∉ x := by
  intro l
  induction l with
  | nil =>
      intro x hx
      simp [splitNl] at hx
      subst hx
      simp
  | cons c r ih =>
      intro x hx
      by_cases hc : c = '\n'
      · subst hc
        rw [splitNl_cons_nl] at hx
        rcases List.mem_cons.mp hx with rfl | hx'
        · simp
        · exact ih x hx'
      · rw [splitNl_cons_ne c r hc] at hx
        obtain ⟨m, ms, hs⟩ := exists_splitNl_cons r
        rw [hs] at hx
        rcases List.mem_cons.mp hx with rfl | hx'
        · intro hmem
          rcases List.mem_append.mp hmem with h1 | h2
          · rcases List.mem_singleton.mp h1 with rfl
            exact hc rfl
          · exact ih m (hs ▸ List.mem_cons_self m ms) h2
        · exact ih x (hs ▸ List.mem_cons_of_mem m hx')

lemma lastLine_cons_cons (x y : List Char) (ys : List (List Char)) :
    lastLine (x :: y :: ys) = lastLine (y :: ys) := rfl

lemma lastLine_mem : ∀ (ls : List (List Char)), ls ≠ [] → lastLine ls ∈ ls := by
  intro ls
  induction ls with
  | nil => intro h; exact absurd rfl h
  | cons x rest ih =>
      intro _
      cases rest with
      | nil => exact List.mem_singleton.mpr rfl
      | cons y ys =>
          rw [lastLine_cons_cons]
          exact List.mem_cons_of_mem x (ih (List.cons_ne_nil y ys))

lemma lastLine_splitNl_no_newline (l : List Char) : '\n' ∉ lastLine (splitNl l) :=
  splitNl_mem_no_newline l _ (lastLine_mem _ (splitNl_ne_nil l))

lemma lastLine_append (l1 l2 : List (List Char)) (h : l2 ≠ []) :
    lastLine (l1 ++ l2) = lastLine l2 := by
  induction l1 with
  | nil => rfl
  | cons x l1 ih =>
      obtain ⟨y, ys, h2⟩ : ∃ y ys, l1 ++ l2 = y :: ys := by
        cases hl : l1 ++ l2 with
        | nil =>
            rw [List.append_eq_nil] at hl
            exact absurd hl.2 h
        | cons y ys => exact ⟨y, ys, rfl⟩
      rw [List.cons_append, h2, lastLine_cons_cons, ← h2, ih]

lemma dropLast_cons_ne (x : List Char) (s : List (List Char)) (h : s ≠ []) :
    (x :: s).dropLast = x :: s.dropLast := by
  cases s with
  | nil => exact absurd rfl h
  | cons y ys => rfl

lemma dropLast_append_ne (l1 l2 : List (List Char)) (h : l2 ≠ []) :
    (l1 ++ l2).dropLast = l1 ++ l2.dropLast := by
  induction l1 with
  | nil => rfl
  | cons x l1 ih =>
      have hne : l1 ++ l2 ≠ [] := by
        intro hn
        rw [List.append_eq_nil] at hn
        exact h hn.2
      rw [List.cons_append, dropLast_cons_ne x _ hne, ih, List.cons_append]

lemma splitNl_append : ∀ (a b : List Char),
    splitNl (a ++ b) = (splitNl a).dropLast ++ consFirst (lastLine (splitNl a)) (splitNl b) := by
  intro a
  induction a with
  | nil =>
      intro b
      obtain ⟨m, ms, hb⟩ := exists_splitNl_cons b
      rw [List.nil_append, hb]
      rfl
  | cons c a ih =>
      intro b
      by_cases hc : c = '\n'
      · subst hc
        rw [List.cons_append, splitNl_cons_nl, splitNl_cons_nl, ih b]
        obtain ⟨l, ls, ha⟩ := exists_splitNl_cons a
        rw [ha]
        cases ls with
        | nil => rfl
        | cons y ys => rfl
      · rw [List.cons_append, splitNl_cons_ne c _ hc, splitNl_cons_ne c _ hc, ih b]
        obtain ⟨l, ls, ha⟩ := exists_splitNl_cons a
        rw [ha]
        cases ls with
        | nil =>
            obtain ⟨m, ms, hb⟩ := exists_splitNl_cons b
            rw [hb]
            rfl
        | cons y ys => rfl

lemma runDecoder_canonical (parse : List Char → Option OllamaStreamChunk) :
    ∀ (chunks : List (List Char)) (buffer : List Char), '\n' ∉ buffer →
    runDecoder parse chunks buffer =
      (((splitNl (buffer ++ chunks.flatten)).dropLast).filterMap (lineRecord parse),
       lastLine (splitNl (buffer ++ chunks.flatten))) := by
  intro chunks
  induction chunks with
  | nil =>
      intro buffer hb
      rw [List.flatten_nil, List.append_nil, splitNl_no_newline buffer hb]
      rfl
  | cons c rest ih =>
      intro buffer hb
      show ((splitNl (buffer ++ c)).dropLast.filterMap (lineRecord parse)
              ++ (runDecoder parse rest (lastLine (splitNl (buffer ++ c)))).1,
            (runDecoder parse rest (lastLine (splitNl (buffer ++ c)))).2) = _
      rw [ih (lastLine (splitNl (buffer ++ c))) (lastLine_splitNl_no_newline _)]
      have hassoc : buffer ++ (c :: rest).flatten = (buffer ++ c) ++ rest.flatten := by
        rw [List.flatten_cons, ← List.append_assoc]
      rw [hassoc, splitNl_append (buffer ++ c) rest.flatten]
      have hbl : splitNl (lastLine (splitNl (buffer ++ c)) ++ rest.flatten)
      = consFirst (lastLine (splitNl (buffer ++ c))) (splitNl rest.flatten) := by
        rw [splitNl_append, splitNl_no_newline _ (lastLine_splitNl_no_newline _)]
        rfl
      rw [hbl]
      have hne : consFirst (lastLine (splitNl (buffer ++ c))) (splitNl rest.flatten) ≠ [] :=
        consFirst_ne_nil _ _
      rw [dropLast_append_ne _ _ hne, List.filterMap_append, lastLine_append _ _ hne]

/-- C3: the decoder's record sequence and the facade's fragment sequence are
invariant under chunk boundaries (feeding any partition of a byte sequence
equals feeding it as one chunk), and the buffer left after the loop is
exactly the suffix of the input after its last newline (the unparsed
suffix), for every parse function. -/
theorem C3_chunk_boundary_invariance (parse : List Char → Option OllamaStreamChunk)
    (chunks : List (List Char)) :
    decodeRecords parse chunks = decodeRecords parse [chunks.flatten]
    ∧ parseStreamingResponse parse chunks = parseStreamingResponse parse [chunks.flatten]
    ∧ (runDecoder parse chunks []).2 = lastLine (splitNl chunks.flatten) := by
  have h1 := runDecoder_canonical parse chunks [] (by simp)
  have h2 := runDecoder_canonical parse [chunks.flatten] [] (by simp)
  have hfl : ([chunks.flatten] : List (List Char)).flatten = chunks.flatten := by simp
  rw [hfl] at h2
  rw [List.nil_append] at h1 h2
  refine ⟨?_, ?_, ?_⟩
  · unfold decodeRecords
    rw [h1, h2]
  · unfold parseStreamingResponse
    rw [h1, h2]
  · rw [h1]

/-- NDJSON framing: every record followed by one newline. -/
def joinNl (ls : List (List Char)) : List Char := (ls.map (fun l => l ++ ['\n'])).flatten

lemma splitNl_joinNl : ∀ (ls : List (List Char)), (∀ l ∈ ls, '\n' ∉ l) →
    splitNl (joinNl ls) = ls ++ [[]] := by
  intro ls
  induction ls with
  | nil => intro _; rfl
  | cons l rest ih =>
      intro h
      have hl : '\n' ∉ l := h l (List.mem_cons_self l rest)
      have hr : ∀ x ∈ rest, '\n' ∉ x := fun x hx => h x (List.mem_cons_of_mem l hx)
      show splitNl ((l ++ ['\n']) ++ joinNl rest) = (l :: rest) ++ [[]]
      rw [List.append_assoc, List.singleton_append, splitNl_append,
          splitNl_no_newline l hl, splitNl_cons_nl, ih hr]
      simp [consFirst, lastLine]

lemma filterMap_lineRecord_eq_parse (parse : List Char → Option OllamaStreamChunk) :
    ∀ (ls : List (List Char)), (∀ l ∈ ls, isBlankLine l = false) →
    ls.filterMap (lineRecord parse) = ls.filterMap parse := by
  intro ls
  induction ls with
  | nil => intro _; rfl
  | cons l rest ih =>
      intro h
      have hl : isBlankLine l = false := h l (List.mem_cons_self l rest)
      have hr := fun x hx => h x (List.mem_cons_of_mem l hx)
      have : lineRecord parse l = parse l := by
        unfold lineRecord
        rw [hl]
        rfl
      rw [List.filterMap_cons, List.filterMap_cons, this, ih hr]

lemma filterMap_length_of_isSome (parse : List Char → Option OllamaStreamChunk) :
    ∀ (ls : List (List Char)), (∀ l ∈ ls, (parse l).isSome = true) →
    (ls.filterMap parse).length = ls.length := by
  intro ls
  induction ls with
  | nil => intro _; rfl
  | cons l rest ih =>
      intro h
      obtain ⟨r, hr⟩ := Option.isSome_iff_exists.mp (h l (List.mem_cons_self l rest))
      rw [List.filterMap_cons, hr, List.length_cons,
          ih (fun x hx => h x (List.mem_cons_of_mem l hx))]
      rfl

/-- C5: a newline-terminated stream of records in which every line of pre
and post is nonblank, parseable and newline-free, with one unparseable line
inserted between them, decodes to exactly the records of pre and post in
order: the corrupted line is skipped, no record is lost or duplicated, and
the count equals the number of valid records. -/
theorem C5_corrupted_line_skipped (parse : List Char → Option OllamaStreamChunk)
    (pre post : List (List Char)) (bad : List Char)
    (hvalid : ∀ l ∈ pre ++ post,
      isBlankLine l = false ∧ (parse l).isSome = true ∧ '\n' ∉ l)
    (hbad : parse bad = none) (hbadnl : '\n' ∉ bad) :
    decodeRecords parse [joinNl (pre ++ bad :: post)] = (pre ++ post).filterMap parse
    ∧ ((pre ++ post).filterMap parse).length = (pre ++ post).length := by
  have hnl : ∀ l ∈ pre ++ bad :: post, '\n' ∉ l := by
    intro l hl
    rcases List.mem_append.mp hl with h1 | h2
    · exact (hvalid l (List.mem_append.mpr (Or.inl h1))).2.2
    · rcases List.mem_cons.mp h2 with rfl | h3
      · exact hbadnl
      · exact (hvalid l (List.mem_append.mpr (Or.inr h3))).2.2
  have h1 := runDecoder_canonical parse [joinNl (pre ++ bad :: post)] [] (by simp)
  have hfl : ([joinNl (pre ++ bad :: post)] : List (List Char)).flatten
      = joinNl (pre ++ bad :: post) := by simp
  rw [hfl, List.nil_append, splitNl_joinNl _ hnl] at h1
  have hdrop : ((pre ++ bad :: post) ++ [[]]).dropLast = pre ++ bad :: post :=
    List.dropLast_concat
  have hlast : lastLine ((pre ++ bad :: post) ++ [[]]) = [] :=
    lastLine_append _ _ (List.cons_ne_nil _ _)
  rw [hdrop, hlast] at h1
  have hlrbad : lineRecord parse bad = none := by
    unfold lineRecord
    split
    · rfl
    · exact hbad
  have hvb : ∀ l ∈ pre ++ post, isBlankLine l = false := fun l hl => (hvalid l hl).1
  have hmain : (pre ++ bad :: post).filterMap (lineRecord parse)
      = (pre ++ post).filterMap parse := by
    rw [List.filterMap_append, List.filterMap_cons, hlrbad]
    rw [← List.filterMap_append]
    exact filterMap_lineRecord_eq_parse parse (pre ++ post) hvb
  constructor
  · unfold decodeRecords
    rw [h1]
    show (pre ++ bad :: post).filterMap (lineRecord parse)
        ++ (lineRecord parse []).toList = _
    have hblank : lineRecord parse [] = none := rfl
    rw [hblank, hmain]
    simp
  · exact filterMap_length_of_isSome parse (pre ++ post)
      (fun l hl => (hvalid l hl).2.1)

def sampleGoodLine : List Char := "\x7b\"model\":\"m\",\"created_at\":\"x\",\"done\":true\x7d".data

def sampleChunkDone : OllamaStreamChunk := { model := "m", created_at := "x", done := true }

def sampleParseC5 : List Char → Option OllamaStreamChunk :=
  fun l => if l = sampleGoodLine then some sampleChunkDone else none

def sampleBadLine : List Char := "oops".data

/-- C5 witness: two valid records with one corrupted line between them
decode to exactly the two valid records. -/
theorem C5_witness :
    decodeRecords sampleParseC5 [joinNl ([sampleGoodLine] ++ sampleBadLine :: [sampleGoodLine])]
        = ([sampleGoodLine] ++ [sampleGoodLine]).filterMap sampleParseC5
    ∧ (([sampleGoodLine] ++ [sampleGoodLine]).filterMap sampleParseC5).length
        = ([sampleGoodLine] ++ [sampleGoodLine]).length :=
  C5_corrupted_line_skipped sampleParseC5 [sampleGoodLine] [sampleGoodLine] sampleBadLine
    (by decide) (by decide) (by decide)

def partNonempty : RespPart → Bool
  | RespPart.text s => decide (s ≠ "")
  | RespPart.functionCall _ _ => true

def hasNonemptyContentPart (g : GenerateContentResponse) : Bool :=
  match g.candidates with
  | [] => false
  | cand :: _ => cand.content.parts.any partNonempty

def finishReasonSet (g : GenerateContentResponse) : Bool :=
  match g.candidates with
  | [] => false
  | cand :: _ => cand.finishReason.isSome

/-- A fragment carrying at least one nonempty content part, or converted
from a terminal record (whose finish reason is then set). -/
def fragmentOk (g : GenerateContentResponse) : Bool :=
  hasNonemptyContentPart g || finishReasonSet g

lemma fragmentOk_of_emit (c : OllamaStreamChunk)
    (h : (respHasParts (convertStreamChunkToGeminiResponse c) || c.done) = true) :
    fragmentOk (convertStreamChunkToGeminiResponse c) = true := by
  rcases Bool.or_eq_true_iff.mp h with hp | hd
  · simp only [convertStreamChunkToGeminiResponse, respHasParts] at hp
    simp only [fragmentOk, hasNonemptyContentPart, convertStreamChunkToGeminiResponse]
    cases hm : c.message with
    | none =>
        rw [hm] at hp
        simp at hp
    | some m =>
        rw [hm] at hp
        dsimp only at hp ⊢
        by_cases hc : m.content = ""
        · rw [hc] at hp
          simp at hp
        · simp [partNonempty, hc]
  · simp [fragmentOk, finishReasonSet, hasNonemptyContentPart,
      convertStreamChunkToGeminiResponse, hd]

/-- C2 (amended): every fragment that parseStreamingResponse yields except
possibly the final one (the unconditional yield of the residual-buffer
record) carries at least one nonempty content part or has its finish reason
set (terminal source record): the emptiness filter governs every main-loop
yield. -/
theorem C2_main_loop_fragments_filtered (parse : List Char → Option OllamaStreamChunk)
    (chunks : List (List Char)) (r : GenerateContentResponse)
    (hr : r ∈ (parseStreamingResponse parse chunks).dropLast) :
    fragmentOk r = true := by
  unfold parseStreamingResponse at hr
  have hmemA : r ∈ (runDecoder parse chunks []).1.filterMap emitFilter := by
    cases hres : lineRecord parse (runDecoder parse chunks []).2 with
    | none =>
        rw [hres] at hr
        simp only [Option.map_none', Option.toList_none, List.append_nil] at hr
        exact List.Sublist.subset (List.dropLast_sublist _) hr
    | some c0 =>
        rw [hres] at hr
        simp only [Option.map_some', Option.toList_some] at hr
        rw [List.dropLast_concat] at hr
        exact hr
  obtain ⟨c0, _, hc0⟩ := List.mem_filterMap.mp hmemA
  unfold emitFilter at hc0
  by_cases hcond : (respHasParts (convertStreamChunkToGeminiResponse c0) || c0.done) = true
  · rw [if_pos hcond] at hc0
    cases hc0
    exact fragmentOk_of_emit c0 hcond
  · rw [if_neg hcond] at hc0
    cases hc0

def c2Line1 : List Char :=
  "\x7b\"model\":\"m\",\"created_at\":\"x\",\"message\":\x7b\"role\":\"assistant\",\"content\":\"hi\"\x7d,\"done\":false\x7d".data

def c2Chunk1 : OllamaStreamChunk :=
  { model := "m", created_at := "x", message := some ⟨"assistant", "hi"⟩, done := false }

def c2Line2 : List Char :=
  "\x7b\"model\":\"m\",\"created_at\":\"x\",\"done\":true,\"done_reason\":\"stop\"\x7d".data

def c2Chunk2 : OllamaStreamChunk :=
  { model := "m", created_at := "x", done := true, done_reason := some "stop" }

def c2Parse : List Char → Option OllamaStreamChunk :=
  fun l => if l = c2Line1 then some c2Chunk1 else if l = c2Line2 then some c2Chunk2 else none

/-- C2 witness: in a two-record newline-terminated stream, the first yielded
fragment (a non-final one) satisfies the filter property. -/
theorem C2_witness : fragmentOk (convertStreamChunkToGeminiResponse c2Chunk1) = true :=
  C2_main_loop_fragments_filtered c2Parse [c2Line1 ++ '\n' :: (c2Line2 ++ ['\n'])]
    (convertStreamChunkToGeminiResponse c2Chunk1) (by decide)

def c2BadLine : List Char := "\x7b\"model\":\"m\",\"created_at\":\"x\",\"done\":false\x7d".data

def c2BadChunk : OllamaStreamChunk := { model := "m", created_at := "x", done := false }

def c2BadParse : List Char → Option OllamaStreamChunk :=
  fun l => if l = c2BadLine then some c2BadChunk else none

/-- C2 counterexample to the claim as stated: a stream ending in a
non-newline-terminated record with done false and no content makes the
residual-buffer path yield a fragment with no nonempty content part and no
finish reason, so not every yielded fragment satisfies the filter. -/
theorem C2_counterexample :
    (parseStreamingResponse c2BadParse [c2BadLine]).all fragmentOk = false
    ∧ (parseStreamingResponse c2BadParse [c2BadLine]).length = 1 := by
  constructor
  · decide
  · decide

/-
Adapter facade of ollamaContentGenerator.ts. The HTTP transport is external;
one call's observable transport behavior is a FetchOutcome: a parsed
successful response, a non-2xx status with its body text, or a thrown
JavaScript error (network failure or abort). The error classification code
around it is translated directly.
-/

structure JsError where
  name : String
  message : String
deriving DecidableEq

inductive FetchOutcome (α : Type)
  | success (value : α)
  | httpError (status : Nat) (body : String)
  | thrown (e : JsError)
deriving DecidableEq

def connectionErrorMessage (baseUrl : String) : String :=
  "Cannot connect to Ollama at " ++ baseUrl ++
    ". Please ensure Ollama is running (try: ollama serve)"

/-- Catch handler of generateContent: an AbortError is rethrown unchanged,
an error whose message contains ECONNREFUSED is replaced by the connection
error naming the endpoint, anything else is rethrown. -/
def generateContentCatch (baseUrl : String) (e : JsError) : JsError :=
  if e.name = "AbortError" then e
  else if containsSub e.message "ECONNREFUSED" then
    { name := "Error", message := connectionErrorMessage baseUrl }
  else e

/-- Mirrors generateContent: the non-2xx branch throws inside the try block,
so both it and a thrown transport error pass through the catch handler. -/
def generateContentRun (baseUrl : String) (outcome : FetchOutcome OllamaResponse) :
    Except JsError GenerateContentResponse :=
  match outcome with
  | FetchOutcome.success r => Except.ok (convertToGeminiResponse r)
  | FetchOutcome.httpError status body =>
      Except.error (generateContentCatch baseUrl
        { name := "Error"
          message := "Ollama API error (" ++ toString status ++ "): " ++ body })
  | FetchOutcome.thrown e => Except.error (generateContentCatch baseUrl e)

/-- Mirrors generateContentStream up to returning the generator: no
try/catch wraps the fetch, a non-2xx status raises the HTTP error, a null
body raises its own error, and otherwise the decoder pipeline runs on the
body. A thrown transport error propagates unchanged. -/
def generateContentStreamRun (parse : List Char → Option OllamaStreamChunk)
    (_baseUrl : String) (outcome : FetchOutcome (Option (List (List Char)))) :
    Except JsError (List GenerateContentResponse) :=
  match outcome with
  | FetchOutcome.success none =>
      Except.error { name := "Error", message := "Ollama response body is null" }
  | FetchOutcome.success (some body) => Except.ok (parseStreamingResponse parse body)
  | FetchOutcome.httpError status body =>
      Except.error { name := "Error"
                     message := "Ollama API error (" ++ toString status ++ "): " ++ body }
  | FetchOutcome.thrown e => Except.error e

structure EmbedContentParameters where
  model : String
  contents : List Content
deriving DecidableEq

structure ContentEmbedding where
  values : List Rat
deriving DecidableEq

structure EmbedContentResponse where
  embeddings : List ContentEmbedding
deriving DecidableEq

structure OllamaEmbeddingRequest where
  model : String
  prompt : String
deriving DecidableEq

structure OllamaEmbeddingResponse where
  embedding : List Rat
deriving DecidableEq

/-- Text accumulation of embedContent: every truthy text part across the
turns contributes its text followed by one space. A single content item is
wrapped into a one-element list by the source before this loop. -/
def embedText (contents : List Content) : String :=
  contents.foldl (fun acc c =>
    c.parts.foldl (fun acc2 p =>
      match p with
      | Part.text s => if s ≠ "" then acc2 ++ s ++ " " else acc2
      | _ => acc2) acc) ""

/-- Catch handler of embedContent: only the ECONNREFUSED wrap, with no
AbortError case. -/
def embedContentCatch (baseUrl : String) (e : JsError) : JsError :=
  if containsSub e.message "ECONNREFUSED" then
    { name := "Error", message := connectionErrorMessage baseUrl }
  else e

/-- Mirrors embedContent: text extraction, the fail-fast validation raised
before the try block and before any network call, then a single POST to the
embeddings endpoint whose outcome passes through the catch handler. The
first component is the list of requests actually issued. -/
def embedContentRun (baseUrl : String)
    (post : OllamaEmbeddingRequest → FetchOutcome OllamaEmbeddingResponse)
    (request : EmbedContentParameters) :
    List OllamaEmbeddingRequest × Except JsError EmbedContentResponse :=
  let text := embedText request.contents
  if jsTrim text = "" then
    ([], Except.error { name := "Error", message := "No text content found for embedding" })
  else
    let req : OllamaEmbeddingRequest := { model := request.model, prompt := jsTrim text }
    match post req with
    | FetchOutcome.success r =>
        ([req], Except.ok { embeddings := [{ values := r.embedding }] })
    | FetchOutcome.httpError status body =>
        ([req], Except.error (embedContentCatch baseUrl
          { name := "Error"
            message := "Ollama embeddings API error (" ++ toString status ++ "): " ++ body }))
    | FetchOutcome.thrown e => ([req], Except.error (embedContentCatch baseUrl e))

lemma isPrefixOf_append_self (b c : List Char) : b.isPrefixOf (b ++ c) = true := by
  induction b with
  | nil =>
      rw [List.nil_append]
      cases c <;> rfl
  | cons x b ih => simp [List.isPrefixOf, ih]

lemma containsSub_of_split (s pat : String) (a c : List Char)
    (h : s.data = a ++ (pat.data ++ c)) : containsSub s pat = true := by
  unfold containsSub
  rw [List.any_eq_true]
  refine ⟨pat.data ++ c, ?_, isPrefixOf_append_self _ _⟩
  rw [List.mem_tails, h]
  exact List.suffix_append a (pat.data ++ c)

lemma connectionErrorMessage_contains_url (u : String) :
    containsSub (connectionErrorMessage u) u = true :=
  containsSub_of_split _ _ "Cannot connect to Ollama at ".data
    ". Please ensure Ollama is running (try: ollama serve)".data
    (by simp [connectionErrorMessage, List.append_assoc])

lemma connectionErrorMessage_contains_hint (u : String) :
    containsSub (connectionErrorMessage u) "try: ollama serve" = true := by
  apply containsSub_of_split _ _
    ("Cannot connect to Ollama at ".data ++ u.data ++ ". Please ensure Ollama is running (".data)
    ")".data
  have hsplit : ". Please ensure Ollama is running (try: ollama serve)".data
      = ". Please ensure Ollama is running (".data ++ ("try: ollama serve".data ++ ")".data) := by
    decide
  simp [connectionErrorMessage, hsplit, List.append_assoc]

/-- C6 (amended): a connection-refused transport error (message containing
ECONNREFUSED, not an AbortError) surfaced by generateContent or embedContent
is replaced by the connection error, whose message contains the configured
base endpoint and the remediation hint; generateContentStream performs no
such wrapping and surfaces the raw transport error unchanged. -/
theorem C6_connection_error_wrapping (baseUrl : String) (e : JsError)
    (hname : e.name ≠ "AbortError")
    (hconn : containsSub e.message "ECONNREFUSED" = true) :
    generateContentRun baseUrl (FetchOutcome.thrown e)
        = Except.error { name := "Error", message := connectionErrorMessage baseUrl }
    ∧ (∀ (post : OllamaEmbeddingRequest → FetchOutcome OllamaEmbeddingResponse)
         (request : EmbedContentParameters),
        jsTrim (embedText request.contents) ≠ "" →
        post { model := request.model, prompt := jsTrim (embedText request.contents) }
            = FetchOutcome.thrown e →
        (embedContentRun baseUrl post request).2
          = Except.error { name := "Error", message := connectionErrorMessage baseUrl })
    ∧ containsSub (connectionErrorMessage baseUrl) baseUrl = true
    ∧ containsSub (connectionErrorMessage baseUrl) "try: ollama serve" = true
    ∧ (∀ parse : List Char → Option OllamaStreamChunk,
        generateContentStreamRun parse baseUrl (FetchOutcome.thrown e) = Except.error e) := by
  refine ⟨?_, ?_, connectionErrorMessage_contains_url baseUrl,
    connectionErrorMessage_contains_hint baseUrl, fun _ => rfl⟩
  · show Except.error (generateContentCatch baseUrl e) = _
    unfold generateContentCatch
    rw [if_neg hname, if_pos hconn]
  · intro post request ht hp
    simp only [embedContentRun, if_neg ht, hp]
    show Except.error (embedContentCatch baseUrl e) = _
    unfold embedContentCatch
    rw [if_pos hconn]

def c6Error : JsError :=
  { name := "TypeError", message := "connect ECONNREFUSED 127.0.0.1:11434" }

/-- C6 witness: a concrete connection-refused error through generateContent
becomes the connection error, whose message contains the endpoint. -/
theorem C6_witness :
    generateContentRun "http://localhost:11434" (FetchOutcome.thrown c6Error)
        = Except.error { name := "Error"
                         message := connectionErrorMessage "http://localhost:11434" }
    ∧ containsSub (connectionErrorMessage "http://localhost:11434") "http://localhost:11434"
        = true :=
  ⟨(C6_connection_error_wrapping "http://localhost:11434" c6Error (by decide) (by decide)).1,
   (C6_connection_error_wrapping "http://localhost:11434" c6Error (by decide)
      (by decide)).2.2.1⟩

/-- C6 counterexample to the claim as stated: the same connection-refused
error through the streaming operation surfaces unchanged, and its message
does not contain the configured base endpoint. -/
theorem C6_counterexample :
    generateContentStreamRun (fun _ => none) "http://localhost:11434"
        (FetchOutcome.thrown c6Error) = Except.error c6Error
    ∧ containsSub c6Error.message "http://localhost:11434" = false := by
  constructor
  · rfl
  · decide

/-- C8: an embed request whose concatenated trimmed text is empty issues no
network request and fails with the validation error; otherwise exactly one
POST with the trimmed prompt is issued. -/
theorem C8_embed_validation_before_network (baseUrl : String)
    (post : OllamaEmbeddingRequest → FetchOutcome OllamaEmbeddingResponse)
    (request : EmbedContentParameters) :
    (embedContentRun baseUrl post request).1
      = (if jsTrim (embedText request.contents) = "" then []
         else [{ model := request.model, prompt := jsTrim (embedText request.contents) }])
    ∧ (jsTrim (embedText request.contents) = "" →
        (embedContentRun baseUrl post request).2
          = Except.error { name := "Error", message := "No text content found for embedding" }) := by
  constructor
  · by_cases h : jsTrim (embedText request.contents) = ""
    · simp [embedContentRun, h]
    · cases hp : post { model := request.model, prompt := jsTrim (embedText request.contents) } <;>
        simp [embedContentRun, h, hp]
  · intro h
    simp [embedContentRun, h]

def c8Request : EmbedContentParameters :=
  { model := "m", contents := [{ role := some "user", parts := [Part.text "  "] }] }

def c8Post : OllamaEmbeddingRequest → FetchOutcome OllamaEmbeddingResponse :=
  fun _ => FetchOutcome.success { embedding := [] }

/-- C8 witness: a request whose only text part is whitespace fails with the
validation error. -/
theorem C8_witness :
    (embedContentRun "http://localhost:11434" c8Post c8Request).2
      = Except.error { name := "Error", message := "No text content found for embedding" } :=
  (C8_embed_validation_before_network "http://localhost:11434" c8Post c8Request).2 (by decide)

end OllamaAdapter
